import Mathlib

set_option maxHeartbeats 1000000

namespace TinySSE

/-! Shallow embedding of the tinysse repository: hub.go (SSEHub, Broadcast,
register, unregister, GetMessagesSince, clientConnection), tinysse.go
(New, TinySSE) and the Config struct.  Go uint64 arithmetic is modelled as
Nat with explicit reduction mod 2 ^ 64; Go int fields are modelled as Int;
Go strings are Lean Strings; a Go buffered channel is modelled as its
capacity together with the list of buffered values. -/

/-- Numeric value of an ASCII digit character, as used when accumulating a
decimal number during parsing. -/
def digitVal (c : Char) : Nat := c.toNat - 48

/-- One step of the decimal accumulation performed by strconv.ParseUint. -/
def parseStep (acc : Nat) (c : Char) : Nat := acc * 10 + digitVal c

/-- List-level core of strconv.ParseUint(s, 10, 64): fails on an empty
string, on any non-digit character, and on values that do not fit in an
unsigned 64-bit integer (Go reports ErrRange there, which hub.go treats as
failure). -/
def parseUint64List (l : List Char) : Option Nat :=
  if l.isEmpty then none
  else if l.all Char.isDigit then
    if l.foldl parseStep 0 < 2 ^ 64 then some (l.foldl parseStep 0) else none
  else none

/-- Model of strconv.ParseUint(s, 10, 64) followed by the error check. -/
def parseUint64 (s : String) : Option Nat := parseUint64List s.data

/-- Fuel-driven core of strconv.FormatUint(n, 10): most significant digit
first.  Fuel n + 1 always suffices since the recursion divides by 10. -/
def formatUintCore (fuel n : Nat) : List Char :=
  match fuel with
  | 0 => []
  | fuel + 1 =>
    if n < 10 then [Nat.digitChar n]
    else formatUintCore fuel (n / 10) ++ [Nat.digitChar (n % 10)]

/-- Model of strconv.FormatUint(n, 10): the canonical decimal rendering. -/
def formatUint (n : Nat) : String := String.mk (formatUintCore (n + 1) n)

/-- SSEMessage (models source via hub.go usage): the wire record stamped by
Broadcast.  ID is the decimal string produced by strconv.FormatUint. -/
structure SSEMessage where
  ID : String
  Data : List Nat
  Targets : List String
  HandlerID : Nat
deriving Repr, DecidableEq

/-- Config (config source file): only the plain data fields are modelled;
the callback and auth function fields (OnConnect, OnDisconnect, OnMessage,
OnError, TokenValidator, TokenProvider) carry no hub state and are omitted.
Go int fields are Int. -/
structure Config where
  ClientChannelBuffer : Int
  HistoryReplayBuffer : Int
  Endpoint : String
  RetryInterval : Int
  MaxRetryDelay : Int
  MaxReconnectAttempts : Int
  AllowedOrigins : List String
deriving Repr, DecidableEq

/-- clientConnection (hub.go): a connected SSE client on the server side.
The Go field Send is a buffered channel of SSEMessage; it is modelled by
its fixed capacity SendCap (the channel is created elsewhere with capacity
Config.ClientChannelBuffer) together with the list Send of currently
buffered, undrained messages. -/
structure clientConnection where
  ID : String
  UserID : String
  Role : String
  Channels : List String
  SendCap : Nat
  Send : List SSEMessage
deriving Repr, DecidableEq

/-- SSEHub (hub.go): the clients map is modelled as an association list
keyed by clientConnection.ID (one linearization of the Go map; the
per-client effects below do not depend on the order).  lastID is the
uint64 counter. -/
structure SSEHub where
  clients : List clientConnection
  messageBuffer : List SSEMessage
  config : Config
  lastID : Nat
deriving Repr, DecidableEq

/-- NewHub (hub.go lines 20-25): empty clients map, empty buffer, counter
at its Go zero value. -/
def NewHub (c : Config) : SSEHub :=
  { clients := [], messageBuffer := [], config := c, lastID := 0 }

/-- Result of one Go channel send: either the message was placed in the
buffer, or the sender blocks. -/
inductive SendResult where
  | sent (q : List SSEMessage)
  | blocked
deriving Repr, DecidableEq

/-- Go semantics of a send on a buffered channel with no concurrent
receiver (the scenario of the claims: no intervening drain): the value is
enqueued if a buffer slot is free, otherwise the sender blocks. -/
def chanSend (cap : Nat) (q : List SSEMessage) (m : SSEMessage) : SendResult :=
  if q.length < cap then .sent (q ++ [m]) else .blocked

/-- The two inner loops of Broadcast (hub.go lines 49-56) for one client:
for each target of the broadcast, in order, the inner loop over
client.Channels sends the message once if some channel equals the target
(the break exits only that inner loop, so each further matching target
sends again).  A send that blocks never returns; that run is modelled as
none. -/
def fanoutClient (cap : Nat) (q : List SSEMessage) (channels : List String)
    (broadcast : List String) (m : SSEMessage) : Option (List SSEMessage) :=
  match broadcast with
  | [] => some q
  | target :: rest =>
    if channels.contains target then
      match chanSend cap q m with
      | .sent q2 => fanoutClient cap q2 channels rest m
      | .blocked => none
    else fanoutClient cap q channels rest m

/-- The outer loop of Broadcast (hub.go line 48) over the clients map:
every client queue is updated independently; if any send blocks the call
never returns (none). -/
def fanoutClients (clients : List clientConnection) (broadcast : List String)
    (m : SSEMessage) : Option (List clientConnection) :=
  match clients with
  | [] => some []
  | c :: rest =>
    match fanoutClient c.SendCap c.Send c.Channels broadcast m with
    | none => none
    | some q =>
      match fanoutClients rest broadcast m with
      | none => none
      | some cs => some ({ c with Send := q } :: cs)

/-- The message stamped by Broadcast (hub.go lines 30-36): the incremented
uint64 counter rendered by strconv.FormatUint. -/
def stampMessage (h : SSEHub) (data : List Nat) (broadcast : List String)
    (handlerID : Nat) : SSEMessage :=
  { ID := formatUint ((h.lastID + 1) % 2 ^ 64), Data := data,
    Targets := broadcast, HandlerID := handlerID }

/-- The trim of Broadcast (hub.go lines 39-42): when HistoryReplayBuffer
is positive and the buffer has grown past it, keep only the most recent
HistoryReplayBuffer entries. -/
def trimList {α : Type} (cfg : Config) (buf : List α) : List α :=
  if 0 < cfg.HistoryReplayBuffer ∧ cfg.HistoryReplayBuffer < (buf.length : Int)
  then buf.drop (buf.length - cfg.HistoryReplayBuffer.toNat) else buf

/-- Broadcast (hub.go lines 28-58): increment the id counter, stamp the
message, append it to the history buffer, trim, then fan out to every
client whose channels match.  A result of none models a call that never
returns because some client send blocked (in the running program the
counter and buffer updates have committed by that point, but no completed
post-state exists). -/
def Broadcast (h : SSEHub) (data : List Nat) (broadcast : List String)
    (handlerID : Nat) : Option SSEHub :=
  match fanoutClients h.clients broadcast (stampMessage h data broadcast handlerID) with
  | none => none
  | some cs =>
    some { h with
      lastID := (h.lastID + 1) % 2 ^ 64,
      messageBuffer := trimList h.config
        (h.messageBuffer ++ [stampMessage h data broadcast handlerID]),
      clients := cs }

/-- register (hub.go lines 61-65): map assignment h.clients[client.ID] =
client, replacing any entry under the same key. -/
def register (h : SSEHub) (client : clientConnection) : SSEHub :=
  { h with clients := (h.clients.filter (fun x => x.ID != client.ID)) ++ [client] }

/-- unregister (hub.go lines 68-75): when the id is present, delete the
entry and close the Send channel.  The Bool records whether
close(client.Send) was executed on this call. -/
def unregister (h : SSEHub) (client : clientConnection) : SSEHub × Bool :=
  if (h.clients.find? (fun x => x.ID == client.ID)).isSome then
    ({ h with clients := h.clients.filter (fun x => x.ID != client.ID) }, true)
  else (h, false)

/-- Loop body of GetMessagesSince (hub.go lines 89-97): skip a message
whose id does not parse, keep it when its id exceeds the watermark. -/
def replayStep (lastID : Nat) (acc : List SSEMessage) (msg : SSEMessage) :
    List SSEMessage :=
  match parseUint64 msg.ID with
  | none => acc
  | some msgID => if lastID < msgID then acc ++ [msg] else acc

/-- GetMessagesSince (hub.go lines 78-99): empty watermark string returns
nil; an unparseable watermark returns nil; otherwise every buffered record
whose id parses and exceeds the watermark, in buffer order.  The hub is
only read (RLock), never written. -/
def GetMessagesSince (h : SSEHub) (lastEventID : String) : List SSEMessage :=
  if lastEventID = "" then []
  else
    match parseUint64 lastEventID with
    | none => []
    | some lastID => h.messageBuffer.foldl (replayStep lastID) []

/-- One publish request: the arguments of one Broadcast call. -/
structure PubInput where
  data : List Nat
  channels : List String
  handlerID : Nat
deriving Repr, DecidableEq

/-- A sequence of Broadcast calls; none as soon as one of them blocks. -/
def runPublishes (h : SSEHub) : List PubInput → Option SSEHub
  | [] => some h
  | i :: rest =>
    match Broadcast h i.data i.channels i.handlerID with
    | none => none
    | some h2 => runPublishes h2 rest

/-- The id values assigned by a sequence of Broadcast calls, in call
order (each Broadcast stamps formatUint of the listed value). -/
def assignedIds (h : SSEHub) : List PubInput → List Nat
  | [] => []
  | i :: rest =>
    match Broadcast h i.data i.channels i.handlerID with
    | none => []
    | some h2 => h2.lastID :: assignedIds h2 rest

/-- The list [s, s + 1, ..., s + n - 1]. -/
def natRange (s : Nat) : Nat → List Nat
  | 0 => []
  | n + 1 => s :: natRange (s + 1) n

/-- Ids the history buffer holds after the counter reached m on a hub
whose configured capacity is cfg.HistoryReplayBuffer. -/
def expectedIds (cfg : Config) (m : Nat) : List Nat :=
  if 0 < cfg.HistoryReplayBuffer then
    natRange (m + 1 - min m cfg.HistoryReplayBuffer.toNat)
      (min m cfg.HistoryReplayBuffer.toNat)
  else natRange 1 m

/-- Bool test stating what GetMessagesSince keeps: the id parses and
exceeds the watermark. -/
def msgAfter (w : Nat) (m : SSEMessage) : Bool :=
  match parseUint64 m.ID with
  | none => false
  | some i => w < i

/-- Numeric id of a message whose ID field parses (0 otherwise). -/
def msgIdNum (m : SSEMessage) : Nat := (parseUint64 m.ID).getD 0

/-- Modelled from the spec: the client-side reconnection engine (the wasm
client source) is not under src/; only its configuration fields
(RetryInterval, MaxRetryDelay in Config) and its tests appear there.  Per
spec section 4.2, after a transient failure the next delay is the previous
delay doubled and capped at the configured maximum, every wait being
bounded by that maximum; backoffWait d c j is the wait after failure
number j + 1, for base delay d and cap c. -/
def backoffWait (d c : Nat) : Nat → Nat
  | 0 => min d c
  | j + 1 => min (2 * backoffWait d c j) c

/-! Concrete instances used by counterexamples and witnesses. -/

/-- A Config with history capacity 3 (the spec scenario of section 8). -/
def cfgCap3 : Config :=
  { ClientChannelBuffer := 1, HistoryReplayBuffer := 3, Endpoint := "",
    RetryInterval := 0, MaxRetryDelay := 0, MaxReconnectAttempts := 0,
    AllowedOrigins := [] }

/-- A Config with history capacity 0 (the Go zero value, unset). -/
def cfgCap0 : Config :=
  { ClientChannelBuffer := 1, HistoryReplayBuffer := 0, Endpoint := "",
    RetryInterval := 0, MaxRetryDelay := 0, MaxReconnectAttempts := 0,
    AllowedOrigins := [] }

/-- One publish request to channel x. -/
def pubX : PubInput := { data := [0], channels := ["x"], handlerID := 0 }

/-- Five publish requests to channel x. -/
def inputs5 : List PubInput := [pubX, pubX, pubX, pubX, pubX]

/-- The message stamped with id k, payload [0], target x. -/
def msgX (k : Nat) : SSEMessage :=
  { ID := formatUint k, Data := [0], Targets := ["x"], HandlerID := 0 }

/-- The hub state after the five publishes of inputs5 on NewHub cfgCap3:
buffer holds ids 3, 4, 5. -/
def hub5 : SSEHub :=
  { clients := [], messageBuffer := [msgX 3, msgX 4, msgX 5],
    config := cfgCap3, lastID := 5 }

/-- The hub state after one publish of pubX on NewHub cfgCap0. -/
def hubZero1 : SSEHub :=
  { clients := [], messageBuffer := [msgX 1], config := cfgCap0, lastID := 1 }

/-- A subscriber of channel a whose outbound queue has capacity 1. -/
def clientA : clientConnection :=
  { ID := "c1", UserID := "", Role := "", Channels := ["a"],
    SendCap := 1, Send := [] }

/-- A hub with the single capacity-1 subscriber clientA. -/
def hubA : SSEHub :=
  { clients := [clientA], messageBuffer := [], config := cfgCap3, lastID := 0 }

/-- One publish request to channel a. -/
def pubA : PubInput := { data := [1], channels := ["a"], handlerID := 0 }

/-- The subscriber clientA once its single queue slot is occupied. -/
def clientAFull : clientConnection :=
  { ID := "c1", UserID := "", Role := "", Channels := ["a"],
    SendCap := 1, Send := [msgX 1] }

/-- The hub hubA after its first publish to channel a: the queue of its
only subscriber is full. -/
def hubAFull : SSEHub :=
  { clients := [clientAFull], messageBuffer := [msgX 1],
    config := cfgCap3, lastID := 1 }

/-- A subscriber registered for the two channels A and B, with a roomy
queue. -/
def clientAB : clientConnection :=
  { ID := "c2", UserID := "", Role := "", Channels := ["A", "B"],
    SendCap := 10, Send := [] }

/-- A hub with the single two-channel subscriber clientAB. -/
def hubAB : SSEHub :=
  { clients := [clientAB], messageBuffer := [], config := cfgCap3, lastID := 0 }

/-! Lemmas about the decimal rendering and parsing. -/

lemma digitChar_isDigit {d : Nat} (h : d < 10) : (Nat.digitChar d).isDigit = true := by
  interval_cases d <;> decide

lemma digitVal_digitChar {d : Nat} (h : d < 10) : digitVal (Nat.digitChar d) = d := by
  interval_cases d <;> decide

lemma parseStep_append (l : List Char) (c : Char) (a : Nat) :
    (l ++ [c]).foldl parseStep a = (l.foldl parseStep a) * 10 + digitVal c := by
  simp [List.foldl_append, parseStep]

lemma formatUintCore_ne_nil {fuel n : Nat} (h : n < fuel) :
    formatUintCore fuel n ≠ [] := by
  cases fuel with
  | zero => omega
  | succ fuel =>
    simp only [formatUintCore]
    by_cases h10 : n < 10
    · simp [h10]
    · simp [h10]

lemma formatUintCore_all_digits {fuel n : Nat} (h : n < fuel) :
    (formatUintCore fuel n).all Char.isDigit = true := by
  induction fuel generalizing n with
  | zero => omega
  | succ fuel ih =>
    simp only [formatUintCore]
    by_cases h10 : n < 10
    · simp [h10, digitChar_isDigit h10]
    · have hdiv : n / 10 < fuel := by omega
      have := ih hdiv
      simp only [h10, if_false, List.all_append, this, Bool.true_and, List.all_cons,
        List.all_nil, Bool.and_true]
      exact digitChar_isDigit (Nat.mod_lt n (by omega))

lemma formatUintCore_parse {fuel n : Nat} (h : n < fuel) :
    (formatUintCore fuel n).foldl parseStep 0 = n := by
  induction fuel generalizing n with
  | zero => omega
  | succ fuel ih =>
    simp only [formatUintCore]
    by_cases h10 : n < 10
    · simp [h10, parseStep, digitVal_digitChar h10]
    · have hdiv : n / 10 < fuel := by omega
      rw [if_neg h10, parseStep_append, ih hdiv,
        digitVal_digitChar (Nat.mod_lt n (by omega))]
      omega

/-- The canonical decimal rendering of n < 2 ^ 64 parses back to n; this is
how the string id stamped by Broadcast is recovered in GetMessagesSince. -/
lemma parse_formatUint {n : Nat} (h : n < 2 ^ 64) :
    parseUint64 (formatUint n) = some n := by
  have hne := @formatUintCore_ne_nil (n + 1) n (by omega)
  have hall := @formatUintCore_all_digits (n + 1) n (by omega)
  have hp := @formatUintCore_parse (n + 1) n (by omega)
  unfold parseUint64 formatUint parseUint64List
  simp only [String.data]
  rw [if_neg (by simpa [List.isEmpty_iff] using hne), if_pos hall, hp, if_pos h]

/-! Lemmas about natRange. -/

lemma natRange_length (s n : Nat) : (natRange s n).length = n := by
  induction n generalizing s with
  | zero => rfl
  | succ n ih => simp [natRange, ih]

lemma natRange_concat (s n : Nat) : natRange s (n + 1) = natRange s n ++ [s + n] := by
  induction n generalizing s with
  | zero => simp [natRange]
  | succ n ih =>
    show s :: natRange (s + 1) (n + 1) = (s :: natRange (s + 1) n) ++ [s + (n + 1)]
    rw [ih (s + 1), List.cons_append]
    have he : s + 1 + n = s + (n + 1) := by omega
    rw [he]

lemma natRange_mem {s n x : Nat} (h : x ∈ natRange s n) : s ≤ x ∧ x < s + n := by
  induction n generalizing s with
  | zero => simp [natRange] at h
  | succ n ih =>
    rw [natRange] at h
    rcases List.mem_cons.mp h with rfl | h2
    · omega
    · have := ih h2
      omega

lemma natRange_pairwise (s n : Nat) :
    (natRange s n).Pairwise (fun a b => a < b) := by
  induction n generalizing s with
  | zero => exact List.Pairwise.nil
  | succ n ih =>
    rw [natRange]
    exact List.Pairwise.cons (fun y hy => by have := natRange_mem hy; omega) (ih (s + 1))

/-! Lemmas about trimList. -/

lemma trimList_map {α β : Type} (cfg : Config) (f : α → β) (l : List α) :
    trimList cfg (l.map f) = (trimList cfg l).map f := by
  unfold trimList
  simp only [List.length_map]
  by_cases hcond : 0 < cfg.HistoryReplayBuffer ∧ cfg.HistoryReplayBuffer < (l.length : Int)
  · rw [if_pos hcond, if_pos hcond, List.map_drop]
  · rw [if_neg hcond, if_neg hcond]

/-! GetMessagesSince as a filter. -/

lemma foldl_replayStep (w : Nat) (l acc : List SSEMessage) :
    l.foldl (replayStep w) acc = acc ++ l.filter (msgAfter w) := by
  induction l generalizing acc with
  | nil => simp
  | cons m l ih =>
    cases hp : parseUint64 m.ID with
    | none => simp [List.foldl_cons, List.filter_cons, replayStep, msgAfter, hp, ih]
    | some i =>
      by_cases hw : w < i
      · simp [List.foldl_cons, List.filter_cons, replayStep, msgAfter, hp, hw, ih]
      · simp [List.foldl_cons, List.filter_cons, replayStep, msgAfter, hp, hw, ih]

lemma parseUint64_empty : parseUint64 "" = none := rfl

lemma getMessagesSince_some (h : SSEHub) (s : String) (w : Nat)
    (hp : parseUint64 s = some w) :
    GetMessagesSince h s = h.messageBuffer.filter (msgAfter w) := by
  have hs : s ≠ "" := by
    intro e
    rw [e, parseUint64_empty] at hp
    exact Option.noConfusion hp
  unfold GetMessagesSince
  rw [if_neg hs, hp]
  show h.messageBuffer.foldl (replayStep w) [] = _
  rw [foldl_replayStep, List.nil_append]

lemma getMessagesSince_bad (h : SSEHub) (s : String)
    (hs : s ≠ "") (hp : parseUint64 s = none) :
    GetMessagesSince h s = [] := by
  unfold GetMessagesSince
  rw [if_neg hs, hp]

/-! A Broadcast on a hub with no registered clients never blocks. -/

lemma Broadcast_clientless {h : SSEHub} (hc : h.clients = [])
    (d : List Nat) (b : List String) (i : Nat) :
    Broadcast h d b i = some
      { clients := [],
        messageBuffer := trimList h.config (h.messageBuffer ++ [stampMessage h d b i]),
        config := h.config,
        lastID := (h.lastID + 1) % 2 ^ 64 } := by
  unfold Broadcast
  rw [hc]
  rfl

/-! Evolution of the history buffer ids under one publish. -/

lemma expectedIds_step (cfg : Config) (m : Nat) :
    trimList cfg (expectedIds cfg m ++ [m + 1]) = expectedIds cfg (m + 1) := by
  by_cases hp : 0 < cfg.HistoryReplayBuffer
  · set N := cfg.HistoryReplayBuffer.toNat with hNdef
    have hN : 0 < N := by omega
    have hcast : cfg.HistoryReplayBuffer = (N : Int) := by omega
    set K := min m N with hKdef
    have hKm : K ≤ m := Nat.min_le_left m N
    have hKN : K ≤ N := Nat.min_le_right m N
    have hE1 : expectedIds cfg m = natRange (m + 1 - K) K := by
      unfold expectedIds
      rw [if_pos hp]
    have hconcat : natRange (m + 1 - K) K ++ [m + 1] = natRange (m + 1 - K) (K + 1) := by
      rw [natRange_concat]
      have he : m + 1 - K + K = m + 1 := by omega
      rw [he]
    by_cases hm : N ≤ m
    · have hKeq : K = N := by omega
      have hE2 : expectedIds cfg (m + 1) = natRange (m + 1 + 1 - N) N := by
        unfold expectedIds
        rw [if_pos hp]
        have hmin : min (m + 1) N = N := by omega
        rw [hmin]
      rw [hE1, hE2, hconcat]
      unfold trimList
      rw [natRange_length]
      have hcond : 0 < cfg.HistoryReplayBuffer ∧
          cfg.HistoryReplayBuffer < ((K + 1 : Nat) : Int) := by
        refine ⟨hp, ?_⟩
        rw [hcast]
        exact_mod_cast by omega
      rw [if_pos hcond]
      have hdrop : K + 1 - N = 1 := by omega
      rw [hdrop]
      show natRange (m + 1 - K + 1) K = natRange (m + 1 + 1 - N) N
      have harg : m + 1 - K + 1 = m + 1 + 1 - N := by omega
      rw [harg, hKeq]
    · have hKeq : K = m := by omega
      have hE2 : expectedIds cfg (m + 1) = natRange 1 (m + 1) := by
        unfold expectedIds
        rw [if_pos hp]
        have hmin : min (m + 1) N = m + 1 := by omega
        rw [hmin]
        have h4 : m + 1 + 1 - (m + 1) = 1 := by omega
        rw [h4]
      rw [hE1, hE2, hconcat]
      unfold trimList
      rw [natRange_length]
      have hcond : ¬ (0 < cfg.HistoryReplayBuffer ∧
          cfg.HistoryReplayBuffer < ((K + 1 : Nat) : Int)) := by
        rintro ⟨-, hlt⟩
        rw [hcast] at hlt
        have hNK : N < K + 1 := by exact_mod_cast hlt
        omega
      rw [if_neg hcond]
      have harg : m + 1 - K = 1 := by omega
      rw [harg, hKeq]
  · have hE1 : expectedIds cfg m = natRange 1 m := by
      unfold expectedIds
      rw [if_neg hp]
    have hE2 : expectedIds cfg (m + 1) = natRange 1 (m + 1) := by
      unfold expectedIds
      rw [if_neg hp]
    rw [hE1, hE2]
    unfold trimList
    rw [if_neg (by rintro ⟨hpos, -⟩; exact hp hpos)]
    rw [natRange_concat]
    have h1m : (1 : Nat) + m = m + 1 := by omega
    rw [h1m]

/-- Running publishes on a hub with no clients: the counter counts the
calls and the buffer ids follow expectedIds. -/
lemma runPublishes_inv (inputs : List PubInput) :
    ∀ h : SSEHub, h.clients = [] →
    h.messageBuffer.map (fun m => m.ID) = (expectedIds h.config h.lastID).map formatUint →
    h.lastID + inputs.length < 2 ^ 64 →
    ∃ h2, runPublishes h inputs = some h2 ∧ h2.clients = [] ∧ h2.config = h.config ∧
      h2.lastID = h.lastID + inputs.length ∧
      h2.messageBuffer.map (fun m => m.ID) =
        (expectedIds h.config h2.lastID).map formatUint := by
  induction inputs with
  | nil =>
    intro h hc hb hn
    exact ⟨h, rfl, hc, rfl, by simp, by simpa using hb⟩
  | cons i rest ih =>
    intro h hc hb hn
    simp only [List.length_cons] at hn
    have hmod : (h.lastID + 1) % 2 ^ 64 = h.lastID + 1 := Nat.mod_eq_of_lt (by omega)
    rw [runPublishes, Broadcast_clientless hc]
    set h2 : SSEHub :=
      { clients := [],
        messageBuffer := trimList h.config
          (h.messageBuffer ++ [stampMessage h i.data i.channels i.handlerID]),
        config := h.config,
        lastID := (h.lastID + 1) % 2 ^ 64 } with hh2
    have hl2 : h2.lastID = h.lastID + 1 := hmod
    have hb2 : h2.messageBuffer.map (fun m => m.ID) =
        (expectedIds h2.config h2.lastID).map formatUint := by
      show (trimList h.config
          (h.messageBuffer ++ [stampMessage h i.data i.channels i.handlerID])).map
            (fun m => m.ID) =
        (expectedIds h.config ((h.lastID + 1) % 2 ^ 64)).map formatUint
      rw [hmod, ← trimList_map, List.map_append, hb]
      have hsing : List.map (fun m => m.ID) [stampMessage h i.data i.channels i.handlerID]
          = List.map formatUint [h.lastID + 1] := by
        show [formatUint ((h.lastID + 1) % 2 ^ 64)] = [formatUint (h.lastID + 1)]
        rw [hmod]
      rw [hsing, ← List.map_append, trimList_map, expectedIds_step]
    obtain ⟨h3, hr, hc3, hcfg3, hl3, hb3⟩ :=
      ih h2 rfl hb2 (by rw [hl2]; omega)
    refine ⟨h3, hr, hc3, hcfg3, ?_, ?_⟩
    · rw [hl3, hl2]
      simp only [List.length_cons]
      omega
    · rw [hb3]

/-- The ids assigned by publishes on a hub with no clients count up from
the current counter value. -/
lemma assignedIds_clientless (inputs : List PubInput) :
    ∀ h : SSEHub, h.clients = [] → h.lastID + inputs.length < 2 ^ 64 →
    assignedIds h inputs = natRange (h.lastID + 1) inputs.length := by
  induction inputs with
  | nil => intro h _ _; rfl
  | cons i rest ih =>
    intro h hc hn
    simp only [List.length_cons] at hn
    have hmod : (h.lastID + 1) % 2 ^ 64 = h.lastID + 1 := Nat.mod_eq_of_lt (by omega)
    rw [assignedIds, Broadcast_clientless hc]
    set h2 : SSEHub :=
      { clients := [],
        messageBuffer := trimList h.config
          (h.messageBuffer ++ [stampMessage h i.data i.channels i.handlerID]),
        config := h.config,
        lastID := (h.lastID + 1) % 2 ^ 64 } with hh2
    have hl2 : h2.lastID = h.lastID + 1 := hmod
    show h2.lastID :: assignedIds h2 rest = natRange (h.lastID + 1) (rest.length + 1)
    rw [ih h2 rfl (by rw [hl2]; omega), hl2]
    rfl

/-- The buffer ids always form a contiguous range ending at the counter,
whose start is at least 1. -/
lemma expectedIds_shape (cfg : Config) (m : Nat) :
    ∃ a K, expectedIds cfg m = natRange a K ∧ 1 ≤ a ∧ a + K = m + 1 := by
  unfold expectedIds
  by_cases hp : 0 < cfg.HistoryReplayBuffer
  · rw [if_pos hp]
    have hKm : min m cfg.HistoryReplayBuffer.toNat ≤ m :=
      Nat.min_le_left m cfg.HistoryReplayBuffer.toNat
    exact ⟨m + 1 - min m cfg.HistoryReplayBuffer.toNat,
      min m cfg.HistoryReplayBuffer.toNat, rfl, by omega, by omega⟩
  · rw [if_neg hp]
    exact ⟨1, m, rfl, by omega, by omega⟩

/-- Every message of a buffer whose ids render the range [a, a + K) has a
parsing id inside that range. -/
lemma buffer_mem_parse {l : List SSEMessage} {a K : Nat}
    (hb : l.map (fun m => m.ID) = (natRange a K).map formatUint)
    (hbound : a + K ≤ 2 ^ 64) {x : SSEMessage} (hx : x ∈ l) :
    ∃ i, parseUint64 x.ID = some i ∧ a ≤ i ∧ i < a + K := by
  have hmem : x.ID ∈ l.map (fun m => m.ID) := List.mem_map_of_mem _ hx
  rw [hb] at hmem
  rcases List.mem_map.mp hmem with ⟨i, hi, hfi⟩
  have hib := natRange_mem hi
  refine ⟨i, ?_, hib.1, hib.2⟩
  rw [← hfi]
  exact parse_formatUint (by omega)

/-- A buffer whose ids render the range [a, a + K) is strictly ascending
in numeric id. -/
lemma buffer_pairwise {l : List SSEMessage} {a K : Nat}
    (hb : l.map (fun m => m.ID) = (natRange a K).map formatUint)
    (hbound : a + K ≤ 2 ^ 64) :
    l.Pairwise (fun x y => msgIdNum x < msgIdNum y) := by
  induction K generalizing l a with
  | zero =>
    cases l with
    | nil => exact List.Pairwise.nil
    | cons x l => exact absurd hb (by simp [natRange])
  | succ K ih =>
    cases l with
    | nil => exact absurd hb (by simp [natRange])
    | cons x l =>
      rw [natRange] at hb
      simp only [List.map_cons, List.cons.injEq] at hb
      obtain ⟨hx, hl⟩ := hb
      refine List.Pairwise.cons ?_ (ih hl (by omega))
      intro y hy
      obtain ⟨j, hj, haj, hjb⟩ := buffer_mem_parse hl (by omega) hy
      have hxn : msgIdNum x = a := by
        unfold msgIdNum
        rw [hx, parse_formatUint (by omega)]
        rfl
      have hyn : msgIdNum y = j := by
        unfold msgIdNum
        rw [hj]
        rfl
      omega

/-- filter keeps everything when every element passes. -/
lemma filter_all_true {l : List SSEMessage} {p : SSEMessage → Bool}
    (h : ∀ x ∈ l, p x = true) : l.filter p = l :=
  List.filter_eq_self.mpr h

/-! Blocking of a full queue. -/

/-- Once some broadcast target matches a channel of a client whose queue
has no free slot, the per-client fan-out blocks. -/
lemma fanoutClient_blocked (b : List String) :
    ∀ (cap : Nat) (q : List SSEMessage) (channels : List String) (m : SSEMessage),
    cap ≤ q.length → (∃ t ∈ b, channels.contains t = true) →
    fanoutClient cap q channels b m = none := by
  induction b with
  | nil =>
    intro cap q channels m _ hex
    rcases hex with ⟨t, ht, -⟩
    exact absurd ht (List.not_mem_nil t)
  | cons t rest ih =>
    intro cap q channels m hcap hex
    unfold fanoutClient
    by_cases hc : channels.contains t = true
    · rw [if_pos hc]
      have hsend : chanSend cap q m = SendResult.blocked := by
        unfold chanSend
        rw [if_neg (by omega)]
      rw [hsend]
    · rw [if_neg hc]
      refine ih cap q channels m hcap ?_
      rcases hex with ⟨t2, ht2, hmem⟩
      rcases List.mem_cons.mp ht2 with rfl | h2
      · exact absurd hmem hc
      · exact ⟨t2, h2, hmem⟩

/-- If some registered client blocks, the whole fan-out blocks. -/
lemma fanoutClients_blocked (clients : List clientConnection)
    (c : clientConnection) (b : List String) (m : SSEMessage)
    (hc : c ∈ clients)
    (hblock : fanoutClient c.SendCap c.Send c.Channels b m = none) :
    fanoutClients clients b m = none := by
  induction clients with
  | nil => exact absurd hc (List.not_mem_nil c)
  | cons c0 rest ih =>
    rcases List.mem_cons.mp hc with rfl | hmem
    · unfold fanoutClients
      rw [hblock]
    · unfold fanoutClients
      cases hf : fanoutClient c0.SendCap c0.Send c0.Channels b m with
      | none => rfl
      | some q =>
        rw [ih hmem]

/-! The deleted entry stays deleted. -/

lemma find_filter_ne (l : List clientConnection) (s : String) :
    (l.filter (fun x => x.ID != s)).find? (fun x => x.ID == s) = none := by
  rw [List.find?_eq_none]
  intro x hx
  have hmem := List.mem_filter.mp hx
  simpa using hmem.2

/-! Remaining small helpers. -/

lemma expectedIds_zero (cfg : Config) : expectedIds cfg 0 = [] := by
  unfold expectedIds
  by_cases hp : 0 < cfg.HistoryReplayBuffer
  · rw [if_pos hp]
    rw [Nat.zero_min]
    rfl
  · rw [if_neg hp]
    rfl

lemma msgAfter_true {w i : Nat} (m : SSEMessage)
    (hp : parseUint64 m.ID = some i) (hw : w < i) : msgAfter w m = true := by
  unfold msgAfter
  rw [hp]
  exact decide_eq_true hw

lemma parseUint64_zeroStr : parseUint64 "0" = some 0 := by decide

lemma msgAfter_elim {w : Nat} {x : SSEMessage} (h : msgAfter w x = true) :
    ∃ i, parseUint64 x.ID = some i ∧ w < i := by
  unfold msgAfter at h
  cases hp : parseUint64 x.ID with
  | none =>
    rw [hp] at h
    exact absurd h (by simp)
  | some i =>
    rw [hp] at h
    exact ⟨i, rfl, of_decide_eq_true h⟩

lemma msgIdNum_of_parse {x : SSEMessage} {i : Nat}
    (hp : parseUint64 x.ID = some i) : msgIdNum x = i := by
  unfold msgIdNum
  rw [hp]
  rfl

/-! Claim theorems. -/

/-- C6: On a fresh hub, every sequence of n Broadcast calls is assigned
the ids 1, 2, ..., n in order: the k-th publish observes id k, the ids are
strictly increasing with no counter gaps, and no id is observed twice
(stated for any n below the uint64 wrap bound 2 ^ 64). -/
theorem C6_assigned_ids (cfg : Config) (inputs : List PubInput)
    (hn : inputs.length < 2 ^ 64) :
    assignedIds (NewHub cfg) inputs = natRange 1 inputs.length ∧
    (assignedIds (NewHub cfg) inputs).Pairwise (fun a b => a < b) := by
  have h1 : assignedIds (NewHub cfg) inputs =
      natRange ((NewHub cfg).lastID + 1) inputs.length :=
    assignedIds_clientless inputs (NewHub cfg) rfl
      (by show 0 + inputs.length < 2 ^ 64; omega)
  refine ⟨h1, ?_⟩
  rw [h1]
  exact natRange_pairwise _ _

/-- Witness for C6 at the five concrete publishes of inputs5. -/
theorem C6_assigned_ids_witness :
    inputs5.length < 2 ^ 64 ∧
    (assignedIds (NewHub cfgCap3) inputs5 = natRange 1 inputs5.length ∧
     (assignedIds (NewHub cfgCap3) inputs5).Pairwise (fun a b => a < b)) :=
  ⟨by decide, C6_assigned_ids cfgCap3 inputs5 (by decide)⟩

/-- C7: With a positive configured capacity N, after any sequence of
publishes the history buffer holds at most N records, and its ids are
exactly the most recent min(n, N) ones, in ascending order (FIFO eviction
of the oldest). -/
theorem C7_history_bound (cfg : Config) (inputs : List PubInput) (h : SSEHub)
    (hcap : 0 < cfg.HistoryReplayBuffer) (hn : inputs.length < 2 ^ 64)
    (hrun : runPublishes (NewHub cfg) inputs = some h) :
    h.messageBuffer.length ≤ cfg.HistoryReplayBuffer.toNat ∧
    h.messageBuffer.map (fun m => m.ID) =
      (natRange (inputs.length + 1 - min inputs.length cfg.HistoryReplayBuffer.toNat)
        (min inputs.length cfg.HistoryReplayBuffer.toNat)).map formatUint := by
  obtain ⟨h2, hr, -, -, hl, hb⟩ := runPublishes_inv inputs (NewHub cfg) rfl
    (by simp [NewHub, expectedIds_zero]) (by show 0 + inputs.length < 2 ^ 64; omega)
  rw [hrun] at hr
  have heq : h2 = h := (Option.some.inj hr).symm
  subst heq
  have hlast : h2.lastID = inputs.length := by simpa [NewHub] using hl
  have hb2 : h2.messageBuffer.map (fun m => m.ID) =
      (expectedIds cfg inputs.length).map formatUint := by
    rw [← hlast]
    exact hb
  have hE : expectedIds cfg inputs.length =
      natRange (inputs.length + 1 - min inputs.length cfg.HistoryReplayBuffer.toNat)
        (min inputs.length cfg.HistoryReplayBuffer.toNat) := by
    unfold expectedIds
    rw [if_pos hcap]
  rw [hE] at hb2
  refine ⟨?_, hb2⟩
  have hlen := congrArg List.length hb2
  simp only [List.length_map, natRange_length] at hlen
  rw [hlen]
  exact Nat.min_le_right _ _

/-- Witness for C7: capacity 3, five publishes, buffer ids 3, 4, 5. -/
theorem C7_history_bound_witness :
    (0 < cfgCap3.HistoryReplayBuffer ∧ inputs5.length < 2 ^ 64 ∧
      runPublishes (NewHub cfgCap3) inputs5 = some hub5) ∧
    (hub5.messageBuffer.length ≤ cfgCap3.HistoryReplayBuffer.toNat ∧
     hub5.messageBuffer.map (fun m => m.ID) =
       (natRange (inputs5.length + 1 - min inputs5.length cfgCap3.HistoryReplayBuffer.toNat)
         (min inputs5.length cfgCap3.HistoryReplayBuffer.toNat)).map formatUint) :=
  ⟨⟨by decide, by decide, by decide⟩,
   C7_history_bound cfgCap3 inputs5 hub5 (by decide) (by decide) (by decide)⟩

/-- C8: unregister is idempotent — an unknown or already-removed id is a
no-op, a second unregister of the same id equals the first, and the Send
queue is closed exactly once: the close (second component) fires on a call
precisely when the id is still registered, hence never on a repeat. -/
theorem C8_unregister_idempotent (h : SSEHub) (c : clientConnection) :
    ((h.clients.find? (fun x => x.ID == c.ID) = none) → unregister h c = (h, false)) ∧
    (unregister (unregister h c).1 c).1 = (unregister h c).1 ∧
    (unregister (unregister h c).1 c).2 = false ∧
    ((unregister h c).2 = true ↔ (h.clients.find? (fun x => x.ID == c.ID)).isSome = true) := by
  have hfilter := find_filter_ne h.clients c.ID
  by_cases hf : (h.clients.find? (fun x => x.ID == c.ID)).isSome = true
  · have h1 : unregister h c =
        ({ h with clients := h.clients.filter (fun x => x.ID != c.ID) }, true) := by
      unfold unregister
      rw [if_pos hf]
    have h2 : unregister { h with clients := h.clients.filter (fun x => x.ID != c.ID) } c =
        ({ h with clients := h.clients.filter (fun x => x.ID != c.ID) }, false) := by
      simp [unregister, hfilter]
    refine ⟨?_, ?_, ?_, ?_⟩
    · intro hnone
      rw [hnone] at hf
      exact absurd hf (by simp)
    · rw [h1]
      show (unregister { h with clients := h.clients.filter (fun x => x.ID != c.ID) } c).1 = _
      rw [h2]
    · rw [h1]
      show (unregister { h with clients := h.clients.filter (fun x => x.ID != c.ID) } c).2 = false
      rw [h2]
    · rw [h1]
      simp [hf]
  · have h1 : unregister h c = (h, false) := by
      unfold unregister
      rw [if_neg hf]
    refine ⟨fun _ => h1, ?_, ?_, ?_⟩
    · rw [h1]
      show (unregister h c).1 = h
      rw [h1]
    · rw [h1]
      show (unregister h c).2 = false
      rw [h1]
    · rw [h1]
      simp only [Bool.false_eq_true, false_iff]
      intro hcontra
      exact hf hcontra

/-- Witness for C8 at the one-subscriber hub hubA. -/
theorem C8_unregister_idempotent_witness :
    ((hubA.clients.find? (fun x => x.ID == clientA.ID) = none) →
        unregister hubA clientA = (hubA, false)) ∧
    (unregister (unregister hubA clientA).1 clientA).1 = (unregister hubA clientA).1 ∧
    (unregister (unregister hubA clientA).1 clientA).2 = false ∧
    ((unregister hubA clientA).2 = true ↔
      (hubA.clients.find? (fun x => x.ID == clientA.ID)).isSome = true) :=
  C8_unregister_idempotent hubA clientA

/-- C9: In the reconnection engine (modelled from the spec, source absent
from src/), with base delay d and cap c the k-th consecutive backoff wait
equals min(d * 2 ^ (k - 1), c). -/
theorem C9_backoff_formula (d c k : Nat) (hk : 1 ≤ k) :
    backoffWait d c (k - 1) = min (d * 2 ^ (k - 1)) c := by
  have hgen : ∀ j, backoffWait d c j = min (d * 2 ^ j) c := by
    intro j
    induction j with
    | zero => simp [backoffWait]
    | succ j ih =>
      show min (2 * backoffWait d c j) c = _
      rw [ih, pow_succ, ← mul_assoc]
      generalize d * 2 ^ j = x
      omega
  exact hgen (k - 1)

/-- Witness for C9: base 100, cap 3000, sixth wait hits the cap. -/
theorem C9_backoff_formula_witness :
    1 ≤ 6 ∧ backoffWait 100 3000 (6 - 1) = min (100 * 2 ^ (6 - 1)) 3000 :=
  ⟨by decide, C9_backoff_formula 100 3000 6 (by decide)⟩

/-- C10: For every hub and every non-empty watermark string that does not
parse as an unsigned 64-bit decimal, GetMessagesSince returns the empty
result (Go nil), with no error and no panic; the function only reads the
hub. -/
theorem C10_unparseable_watermark (h : SSEHub) (s : String) (hs : s ≠ "")
    (hp : parseUint64 s = none) : GetMessagesSince h s = [] :=
  getMessagesSince_bad h s hs hp

/-- Witness for C10 at the watermark string abc. -/
theorem C10_unparseable_watermark_witness :
    (("abc" : String) ≠ "" ∧ parseUint64 "abc" = none) ∧
    GetMessagesSince hub5 "abc" = [] :=
  ⟨⟨by decide, by decide⟩, C10_unparseable_watermark hub5 "abc" (by decide) (by decide)⟩

/-- C1 (counterexample): with queue capacity 1 and two publishes to a
followed channel with no intervening drain, the first record is enqueued
but the second publish never completes — the send blocks; nothing is
dropped, no dropped-message counter exists to be incremented, and the
publish call does not succeed, contrary to the claim. -/
theorem C1_counterexample :
    (Broadcast hubA [1] ["a"] 0).map (fun h2 => h2.clients.map (fun c => c.Send)) =
      some [[stampMessage hubA [1] ["a"] 0]] ∧
    runPublishes hubA [pubA, pubA] = none := by
  constructor
  · decide
  · decide

/-- C1 (amended): when the outbound queue of a matching subscriber is full at
publish time, the hub blocks the publisher: the channel send in hub.go
line 52 has no non-blocking path, so the Broadcast call never completes;
no record is dropped for that subscriber and no dropped-message counter
exists. -/
theorem C1_full_queue_blocks (h : SSEHub) (d : List Nat) (b : List String)
    (i : Nat) (c : clientConnection) (hc : c ∈ h.clients)
    (hfull : c.SendCap ≤ c.Send.length)
    (hmatch : ∃ t ∈ b, c.Channels.contains t = true) :
    Broadcast h d b i = none := by
  unfold Broadcast
  rw [fanoutClients_blocked h.clients c b (stampMessage h d b i) hc
    (fanoutClient_blocked b c.SendCap c.Send c.Channels (stampMessage h d b i)
      hfull hmatch)]

/-- Witness for the amended C1 at the full-queue hub hubAFull. -/
theorem C1_full_queue_blocks_witness :
    (clientAFull ∈ hubAFull.clients ∧ clientAFull.SendCap ≤ clientAFull.Send.length ∧
      ∃ t ∈ (["a"] : List String), clientAFull.Channels.contains t = true) ∧
    Broadcast hubAFull [2] ["a"] 0 = none :=
  ⟨⟨by decide, by decide, by decide⟩,
   C1_full_queue_blocks hubAFull [2] ["a"] 0 clientAFull (by decide) (by decide)
     (by decide)⟩

/-- C2 (code evaluated at the failing input): a subscriber registered for
channels A and B receives a record targeting both A and B twice, not once
— the break in hub.go line 53 exits only the inner channel loop, so every
matching target triggers its own send; a record with disjoint targets is
still never delivered. -/
theorem C2_double_delivery :
    (Broadcast hubAB [7] ["A", "B"] 0).map (fun h2 => h2.clients.map (fun c => c.Send)) =
      some [[stampMessage hubAB [7] ["A", "B"] 0, stampMessage hubAB [7] ["A", "B"] 0]] ∧
    (Broadcast hubAB [7] ["C"] 0).map (fun h2 => h2.clients.map (fun c => c.Send)) =
      some [[]] := by
  constructor
  · decide
  · decide

/-- C3 (counterexample): with HistoryReplayBuffer 0 a published record is
retained and replayed for watermark 0 — history is not disabled. -/
theorem C3_counterexample :
    runPublishes (NewHub cfgCap0) [pubX] = some hubZero1 ∧
    GetMessagesSince hubZero1 "0" = [msgX 1] ∧
    [msgX 1] ≠ ([] : List SSEMessage) := by
  refine ⟨by decide, by decide, by decide⟩

/-- C3 (amended): a zero or negative HistoryReplayBuffer does not disable
history: the buffer is never trimmed, every stamped record is retained
after any sequence of publishes, and replay with watermark 0 returns the
entire buffer. -/
theorem C3_cap_zero_keeps_everything (cfg : Config) (inputs : List PubInput)
    (h : SSEHub) (hcap : cfg.HistoryReplayBuffer ≤ 0) (hn : inputs.length < 2 ^ 64)
    (hrun : runPublishes (NewHub cfg) inputs = some h) :
    h.messageBuffer.map (fun m => m.ID) = (natRange 1 inputs.length).map formatUint ∧
    GetMessagesSince h "0" = h.messageBuffer := by
  obtain ⟨h2, hr, -, -, hl, hb⟩ := runPublishes_inv inputs (NewHub cfg) rfl
    (by simp [NewHub, expectedIds_zero]) (by show 0 + inputs.length < 2 ^ 64; omega)
  rw [hrun] at hr
  have heq : h2 = h := (Option.some.inj hr).symm
  subst heq
  have hlast : h2.lastID = inputs.length := by simpa [NewHub] using hl
  have hE : expectedIds cfg inputs.length = natRange 1 inputs.length := by
    unfold expectedIds
    rw [if_neg (by omega)]
  have hb2 : h2.messageBuffer.map (fun m => m.ID) =
      (natRange 1 inputs.length).map formatUint := by
    rw [← hE, ← hlast]
    exact hb
  refine ⟨hb2, ?_⟩
  rw [getMessagesSince_some h2 "0" 0 parseUint64_zeroStr]
  refine filter_all_true ?_
  intro x hx
  obtain ⟨i, hpi, hai, -⟩ := buffer_mem_parse hb2 (by omega) hx
  exact msgAfter_true x hpi (by omega)

/-- Witness for the amended C3: capacity 0, one publish, full replay. -/
theorem C3_cap_zero_keeps_everything_witness :
    (cfgCap0.HistoryReplayBuffer ≤ 0 ∧ ([pubX] : List PubInput).length < 2 ^ 64 ∧
      runPublishes (NewHub cfgCap0) [pubX] = some hubZero1) ∧
    (hubZero1.messageBuffer.map (fun m => m.ID) =
        (natRange 1 ([pubX] : List PubInput).length).map formatUint ∧
      GetMessagesSince hubZero1 "0" = hubZero1.messageBuffer) :=
  ⟨⟨by decide, by decide, by decide⟩,
   C3_cap_zero_keeps_everything cfgCap0 [pubX] hubZero1 (by decide) (by decide)
     (by decide)⟩

/-- C4 (counterexample): the zero watermark does not return empty — after
five publishes with capacity 3 the watermark string 0 returns all three
buffered records. -/
theorem C4_counterexample :
    runPublishes (NewHub cfgCap3) inputs5 = some hub5 ∧
    GetMessagesSince hub5 "0" = [msgX 3, msgX 4, msgX 5] ∧
    [msgX 3, msgX 4, msgX 5] ≠ ([] : List SSEMessage) := by
  refine ⟨by decide, by decide, by decide⟩

/-- C4 (amended): GetMessagesSince returns exactly the buffered records
whose id strictly exceeds the parsed watermark, in ascending id order and
never one with id ≤ w; an absent (empty string) watermark returns empty;
the zero watermark string 0 is treated numerically and returns every
buffered record (all assigned ids are at least 1), not empty. -/
theorem C4_replay_filter (cfg : Config) (inputs : List PubInput) (h : SSEHub)
    (s : String) (w : Nat) (hn : inputs.length < 2 ^ 64)
    (hrun : runPublishes (NewHub cfg) inputs = some h)
    (hps : parseUint64 s = some w) :
    GetMessagesSince h "" = [] ∧
    GetMessagesSince h "0" = h.messageBuffer ∧
    GetMessagesSince h s = h.messageBuffer.filter (msgAfter w) ∧
    (∀ x ∈ GetMessagesSince h s, w < msgIdNum x) ∧
    (GetMessagesSince h s).Pairwise (fun x y => msgIdNum x < msgIdNum y) := by
  obtain ⟨h2, hr, -, -, hl, hb⟩ := runPublishes_inv inputs (NewHub cfg) rfl
    (by simp [NewHub, expectedIds_zero]) (by show 0 + inputs.length < 2 ^ 64; omega)
  rw [hrun] at hr
  have heq : h2 = h := (Option.some.inj hr).symm
  subst heq
  have hlast : h2.lastID = inputs.length := by simpa [NewHub] using hl
  obtain ⟨a, K, hE, ha1, haK⟩ := expectedIds_shape cfg h2.lastID
  have hb2 : h2.messageBuffer.map (fun m => m.ID) = (natRange a K).map formatUint := by
    rw [← hE]
    exact hb
  have hbound : a + K ≤ 2 ^ 64 := by omega
  have hmp : ∀ x ∈ h2.messageBuffer, ∃ i, parseUint64 x.ID = some i ∧ a ≤ i ∧ i < a + K :=
    fun x hx => buffer_mem_parse hb2 hbound hx
  refine ⟨rfl, ?_, getMessagesSince_some h2 s w hps, ?_, ?_⟩
  · rw [getMessagesSince_some h2 "0" 0 parseUint64_zeroStr]
    refine filter_all_true ?_
    intro x hx
    obtain ⟨i, hpi, hai, -⟩ := hmp x hx
    exact msgAfter_true x hpi (by omega)
  · intro x hx
    rw [getMessagesSince_some h2 s w hps] at hx
    have hmf := List.mem_filter.mp hx
    obtain ⟨i, hpi, hwi⟩ := msgAfter_elim hmf.2
    rw [msgIdNum_of_parse hpi]
    exact hwi
  · rw [getMessagesSince_some h2 s w hps]
    exact List.Pairwise.sublist (List.filter_sublist _) (buffer_pairwise hb2 hbound)

/-- Witness for the amended C4 at hub5 with watermark 2. -/
theorem C4_replay_filter_witness :
    (inputs5.length < 2 ^ 64 ∧ runPublishes (NewHub cfgCap3) inputs5 = some hub5 ∧
      parseUint64 "2" = some 2) ∧
    (GetMessagesSince hub5 "" = [] ∧
     GetMessagesSince hub5 "0" = hub5.messageBuffer ∧
     GetMessagesSince hub5 "2" = hub5.messageBuffer.filter (msgAfter 2) ∧
     (∀ x ∈ GetMessagesSince hub5 "2", 2 < msgIdNum x) ∧
     (GetMessagesSince hub5 "2").Pairwise (fun x y => msgIdNum x < msgIdNum y)) :=
  ⟨⟨by decide, by decide, by decide⟩,
   C4_replay_filter cfgCap3 inputs5 hub5 "2" 2 (by decide) (by decide) (by decide)⟩

/-- C5 (counterexample): the buffer holds ids 3, 4, 5; the watermark 2 is
strictly smaller than the oldest buffered id 3, yet GetMessagesSince
returns all three records rather than empty. -/
theorem C5_counterexample :
    runPublishes (NewHub cfgCap3) inputs5 = some hub5 ∧
    hub5.messageBuffer.head? = some (msgX 3) ∧
    parseUint64 (msgX 3).ID = some 3 ∧ parseUint64 "2" = some 2 ∧
    GetMessagesSince hub5 "2" = [msgX 3, msgX 4, msgX 5] ∧
    [msgX 3, msgX 4, msgX 5] ≠ ([] : List SSEMessage) := by
  refine ⟨by decide, by decide, by decide, by decide, by decide, by decide⟩

/-- C5 (amended): when the watermark is strictly smaller than the oldest
buffered id, GetMessagesSince returns the entire non-empty buffer — every
buffered id exceeds the watermark — not empty, and not an error. -/
theorem C5_older_watermark_returns_all (cfg : Config) (inputs : List PubInput)
    (h : SSEHub) (s : String) (w : Nat) (x0 : SSEMessage) (i0 : Nat)
    (hn : inputs.length < 2 ^ 64)
    (hrun : runPublishes (NewHub cfg) inputs = some h)
    (hps : parseUint64 s = some w)
    (hhead : h.messageBuffer.head? = some x0)
    (hp0 : parseUint64 x0.ID = some i0)
    (hw : w < i0) :
    GetMessagesSince h s = h.messageBuffer ∧ h.messageBuffer ≠ [] := by
  obtain ⟨h2, hr, -, -, hl, hb⟩ := runPublishes_inv inputs (NewHub cfg) rfl
    (by simp [NewHub, expectedIds_zero]) (by show 0 + inputs.length < 2 ^ 64; omega)
  rw [hrun] at hr
  have heq : h2 = h := (Option.some.inj hr).symm
  subst heq
  have hlast : h2.lastID = inputs.length := by simpa [NewHub] using hl
  obtain ⟨a, K, hE, ha1, haK⟩ := expectedIds_shape cfg h2.lastID
  have hb2 : h2.messageBuffer.map (fun m => m.ID) = (natRange a K).map formatUint := by
    rw [← hE]
    exact hb
  have hbound : a + K ≤ 2 ^ 64 := by omega
  cases hbuf : h2.messageBuffer with
  | nil =>
    rw [hbuf] at hhead
    exact absurd hhead (by simp)
  | cons y rest =>
    have hy : y = x0 := by
      rw [hbuf] at hhead
      simpa using hhead
    subst hy
    have hb3 := hb2
    rw [hbuf] at hb3
    cases K with
    | zero => exact absurd hb3 (by simp [natRange])
    | succ K2 =>
      have hb4 : y.ID :: rest.map (fun m => m.ID) =
          formatUint a :: (natRange (a + 1) K2).map formatUint := by
        simpa [natRange] using hb3
      rw [List.cons.injEq] at hb4
      obtain ⟨hx0, -⟩ := hb4
      have hpa : parseUint64 y.ID = some a := by
        rw [hx0]
        exact parse_formatUint (by omega)
      have hia : i0 = a := by
        rw [hpa] at hp0
        exact (Option.some.inj hp0).symm
      refine ⟨?_, by simp⟩
      rw [getMessagesSince_some h2 s w hps, hbuf]
      refine filter_all_true ?_
      intro x hx
      have hx2 : x ∈ h2.messageBuffer := by
        rw [hbuf]
        exact hx
      obtain ⟨i, hpi, hai, -⟩ := buffer_mem_parse hb2 hbound hx2
      exact msgAfter_true x hpi (by omega)

/-- Witness for the amended C5 at hub5 with watermark 2 below oldest id 3. -/
theorem C5_older_watermark_returns_all_witness :
    (inputs5.length < 2 ^ 64 ∧ runPublishes (NewHub cfgCap3) inputs5 = some hub5 ∧
      parseUint64 "2" = some 2 ∧ hub5.messageBuffer.head? = some (msgX 3) ∧
      parseUint64 (msgX 3).ID = some 3 ∧ 2 < 3) ∧
    (GetMessagesSince hub5 "2" = hub5.messageBuffer ∧ hub5.messageBuffer ≠ []) :=
  ⟨⟨by decide, by decide, by decide, by decide, by decide, by decide⟩,
   C5_older_watermark_returns_all cfgCap3 inputs5 hub5 "2" 2 (msgX 3) 3
     (by decide) (by decide) (by decide) (by decide) (by decide) (by decide)⟩

end TinySSE
